import Mathlib

/-!
Verification development for a single-file terminal blackjack game
(src/blackjack.py).  The Python source is shallowly embedded below:
pure data is translated to Lean structures, in-place mutation becomes
explicit state passing, Python ints become Lean `Int`, the interactive
decision provider becomes an explicit list of choices, and operations
that can raise (dealing from an empty deck, popping from an empty hand)
return `Option`.
-/

/-- The thirteen card ranks.  In the source a card's rank is the leading
part of its display name, e.g. "A♠" or "10♦"; suits never influence any
rule, so they are omitted from the embedding. -/
inductive Rank
  | A | n2 | n3 | n4 | n5 | n6 | n7 | n8 | n9 | n10 | J | Q | K
deriving DecidableEq, Fintype

/-- The RANKS_POINTS table of the source: initial point value per rank. -/
def rankPoints : Rank → Int
  | .A => 11
  | .n2 => 2
  | .n3 => 3
  | .n4 => 4
  | .n5 => 5
  | .n6 => 6
  | .n7 => 7
  | .n8 => 8
  | .n9 => 9
  | .n10 => 10
  | .J => 10
  | .Q => 10
  | .K => 10

/-- First character of a rank's display name; the split guard in
play_game compares `hand[0].name[0] == hand[1].name[0]`. -/
def rankChar : Rank → Char
  | .A => 'A'
  | .n2 => '2'
  | .n3 => '3'
  | .n4 => '4'
  | .n5 => '5'
  | .n6 => '6'
  | .n7 => '7'
  | .n8 => '8'
  | .n9 => '9'
  | .n10 => '1'
  | .J => 'J'
  | .Q => 'Q'
  | .K => 'K'

/-- class Card: immutable rank plus a mutable `points` field (only an
Ace's points are ever rewritten, between 11 and 1). -/
structure Card where
  rank : Rank
  points : Int
deriving DecidableEq

/-- `card.name.startswith("A")` of the source: the card is an Ace. -/
def Card.isAce (c : Card) : Bool := c.rank = Rank.A

/-- A card as it leaves a fresh deck: its points are still the
RANKS_POINTS value for its rank. -/
def Card.fresh (c : Card) : Prop := c.points = rankPoints c.rank

/-- LIMIT = 21. -/
def LIMIT : Int := 21

/-- class Deck(list): the remaining cards, first card to be dealt first.
The source stores the stack bottom-first and `deal` pops the last
element; here the list is kept in deal order, so `deal` takes the head. -/
abbrev Deck := List Card

/-- Deck.deal: remove and return the next card; `none` models the
IndexError Python raises on an empty deck. -/
def Deck.deal : Deck → Option (Card × Deck)
  | [] => none
  | c :: rest => some (c, rest)

/-- class Hand(list): the cards together with the cached running `value`
and the natural-`blackjack` flag set by check_blackjack. -/
structure Hand where
  cards : List Card
  value : Int
  blackjack : Bool
deriving DecidableEq

/-- Hand.__init__: no cards, value 0, blackjack False. -/
def Hand.empty : Hand := ⟨[], 0, false⟩

/-- Hand.add_card: append the card; if it is an Ace and the hand's
pre-addition value already exceeds 10, store it with 1 point instead of
11; then add its (possibly rewritten) points to the cached value. -/
def Hand.add_card (h : Hand) (c : Card) : Hand :=
  let c := if c.isAce ∧ h.value > 10 then { c with points := 1 } else c
  { h with cards := h.cards ++ [c], value := h.value + c.points }

/-- Hand.check_blackjack: a natural blackjack is exactly 2 cards whose
value is LIMIT. -/
def Hand.check_blackjack (h : Hand) : Hand :=
  { h with blackjack := h.cards.length = 2 ∧ h.value = LIMIT }

/-- The for-loop body of Hand.reset_ace_value: one pass over the cards
rewriting every Ace still worth 11 down to 1; returns the rewritten list
together with the total amount subtracted (10 per demoted Ace). -/
def demoteAces : List Card → List Card × Int
  | [] => ([], 0)
  | c :: cs =>
    let r := demoteAces cs
    if c.isAce ∧ c.points = 11 then ({ c with points := 1 } :: r.1, r.2 + 10)
    else (c :: r.1, r.2)

/-- Hand.reset_ace_value: when the value exceeds LIMIT, demote every Ace
currently worth 11 to 1, subtracting 10 from the cached value for each.
The loop does not re-test the value between demotions. -/
def Hand.reset_ace_value (h : Hand) : Hand :=
  if h.value > LIMIT then
    { h with cards := (demoteAces h.cards).1, value := h.value - (demoteAces h.cards).2 }
  else h

/-- Hand.draw_card with the dealt card made explicit: add the card, then
re-run the Ace revaluation. -/
def Hand.draw_card (h : Hand) (c : Card) : Hand :=
  (h.add_card c).reset_ace_value

/-- The invariant of §8 of the design: the cached value equals the sum
of the contained cards' current points. -/
def handInv (h : Hand) : Prop := h.value = (h.cards.map Card.points).sum

/-- class Player.  `hand`, `wager`, `stand`, `second_hand` and
`second_wager` are the per-round fields installed by
reset_for_new_round; `second_hand`/`second_wager` are `None` until the
player splits. -/
structure Player where
  name : String
  money : Int
  cashout : Bool
  hand : Hand
  wager : Int
  stand : Bool
  second_hand : Option Hand
  second_wager : Option Int
deriving DecidableEq

/-- validate_wager: rejects exactly the wagers strictly above the
maximum. -/
def validate_wager (wager maximum : Int) : Bool :=
  if wager > maximum then false else true

/-- One accepted iteration of Player.make_bet: if the proposed wager
passes validate_wager against the bankroll it is recorded and deducted;
otherwise the source re-prompts, modelled as `none`. -/
def Player.make_bet (p : Player) (wager : Int) : Option Player :=
  if validate_wager wager p.money then
    some { p with wager := wager, money := p.money - wager }
  else none

/-- Player.split_hand with the deck passed explicitly: pop the last card
of the hand, subtract its points from the cached value, re-promote it to
11 if it is an Ace, start the second hand with it, deal one card to each
of the two hands (first to the original hand, then to the new one),
match the wager on the second hand and deduct it from the bankroll.
`none` models the exceptions Python would raise on an empty hand or an
exhausted deck. -/
def Player.split_hand (p : Player) (deck : Deck) : Option (Player × Deck) :=
  match p.hand.cards.getLast? with
  | none => none
  | some sc =>
    let hand1 : Hand := { p.hand with
      cards := p.hand.cards.dropLast
      value := p.hand.value - sc.points }
    let sc := if sc.isAce then { sc with points := 11 } else sc
    match Deck.deal deck with
    | none => none
    | some (c1, deck1) =>
      match Deck.deal deck1 with
      | none => none
      | some (c2, deck2) =>
        let second := (Hand.empty.add_card sc).add_card c2
        some ({ p with
          hand := hand1.add_card c1
          second_hand := some second
          second_wager := some p.wager
          money := p.money - p.wager }, deck2)

/-- The split guard of play_game: exactly two cards whose names share
their first character, no second hand yet, and bankroll at least the
wager. -/
def splitOffered (p : Player) : Bool :=
  match p.hand.cards with
  | [c1, c2] =>
    rankChar c1.rank = rankChar c2.rank ∧ p.second_hand = none ∧ p.money ≥ p.wager
  | _ => false

/-- The payout computed by payout_natural_blackjacks: wager plus
`int(1.5 * wager)`.  Python's `int(...)` truncates toward zero, so the
bonus is the truncated quotient of `3 * wager` by 2 (the float product
is exact for every wager the game can produce). -/
def natural_blackjack_winnings (w : Int) : Int := w + Int.tdiv (3 * w) 2

/-- Body of the payout_natural_blackjacks loop for one player: a player
flagged with a natural blackjack is credited immediately. -/
def payout_natural_blackjacks_one (p : Player) : Player :=
  if p.hand.blackjack then
    { p with money := p.money + natural_blackjack_winnings p.wager }
  else p

/-- Body of the handle_dealer_blackjack loop for one player: a player
who also holds a natural blackjack gets the wager back; everyone else is
marked standing and keeps nothing. -/
def handle_dealer_blackjack_one (p : Player) : Player :=
  if p.hand.blackjack then { p with money := p.money + p.wager }
  else { p with stand := true }

/-- handle_dealer_blackjack over the whole roster. -/
def handle_dealer_blackjack (ps : List Player) : List Player :=
  ps.map handle_dealer_blackjack_one

/-- payout_hand: a winning hand is paid twice its wager. -/
def payout_hand (p : Player) (wager : Int) : Player :=
  { p with money := p.money + 2 * wager }

/-- compare_hand: a single hand against the dealer's final hand.
Dealer strictly higher: nothing; tie: the wager comes back; player
strictly higher: payout_hand. -/
def compare_hand (p : Player) (hand : Hand) (dealer_hand : Hand) (wager : Int) : Player :=
  if dealer_hand.value > hand.value then p
  else if dealer_hand.value = hand.value then { p with money := p.money + wager }
  else payout_hand p wager

/-- Body of the payout_after_dealer_bust loop for one player: only
standing players are paid, and only on hands whose value is within
LIMIT; the optional second hand is paid from second_wager. -/
def payout_after_dealer_bust_one (p : Player) : Player :=
  if p.stand then
    let p1 := if p.hand.value ≤ LIMIT then payout_hand p p.wager else p
    match p1.second_hand with
    | some sh =>
      if sh.value ≤ LIMIT then payout_hand p1 (p1.second_wager.getD 0) else p1
    | none => p1
  else p

/-- Body of the compare_multiple_hands loop for one player: only
standing players are compared, and only hands within LIMIT. -/
def compare_multiple_one (p : Player) (dealer_hand : Hand) : Player :=
  if p.stand then
    let p1 := if p.hand.value ≤ LIMIT then compare_hand p p.hand dealer_hand p.wager else p
    match p1.second_hand with
    | some sh =>
      if sh.value ≤ LIMIT then compare_hand p1 sh dealer_hand (p1.second_wager.getD 0) else p1
    | none => p1
  else p

/-- The dealer's opening hand: two cards added in dealing order to a
fresh Hand, exactly as deal_hands builds it. -/
def dealer_initial_hand (c1 c2 : Card) : Hand :=
  (Hand.empty.add_card c1).add_card c2

/-- The peek guard of play_game: the face-up card is the last-dealt card
of the dealer's hand, and the dealer checks for a natural blackjack
exactly when its current points equal 10 or it is an Ace. -/
def peek_condition (h : Hand) : Bool :=
  match h.cards.getLast? with
  | some c => c.points = 10 ∨ c.isAce
  | none => false

/-- The line-445 guard of play_game: a player takes a decision turn only
with no natural blackjack and no stand flag. -/
def player_turn_guard (p : Player) : Bool :=
  !p.hand.blackjack && !p.stand

/-- The guard of the loop at the end of play_game that triggers
resolve_dealer_hand: some player is standing and the dealer has no
natural blackjack. -/
def dealer_turn_triggered (ps : List Player) (dealer_hand : Hand) : Bool :=
  ps.any fun p => p.stand && !dealer_hand.blackjack

/-- The while-loop of resolve_dealer_hand: draw while the value is below
17; `none` models the IndexError of dealing from an exhausted deck. -/
def dealer_draw_loop : Deck → Hand → Option (Hand × Deck)
  | deck, h =>
    if h.value < 17 then
      match deck with
      | c :: d2 => dealer_draw_loop d2 (h.draw_card c)
      | [] => none
    else some (h, deck)

/-- Outcome of double_down on one proposed additional wager: `retry`
when validate_wager rejects it (the source re-prompts), `stuck` when the
deck is exhausted, otherwise the returned wager together with the
updated player, hand and deck. -/
inductive DDResult
  | retry
  | stuck
  | ok (wager : Int) (p : Player) (hand : Hand) (deck : Deck)
deriving DecidableEq

/-- double_down: the extra wager may be at most the smaller of the
current wager and the bankroll; when accepted it is added to the wager
(returned, per the source's workaround), deducted from the bankroll, one
forced card is drawn, and the player stands. -/
def double_down (p : Player) (hand : Hand) (deck : Deck) (wager additional : Int) : DDResult :=
  if validate_wager additional (min wager p.money) then
    match Deck.deal deck with
    | some (c, d2) =>
      DDResult.ok (wager + additional)
        { p with money := p.money - additional, stand := true }
        (hand.draw_card c) d2
    | none => DDResult.stuck
  else DDResult.retry

/-- One answer from the decision provider during a player's turn: Hit,
Stand, sPlit, Double-down (with the proposed additional wager), or an
unrecognized token, which the source reports and then re-prompts. -/
inductive Choice
  | H
  | S
  | P
  | D (amount : Int)
  | invalid
deriving DecidableEq

/-- The line-463 guard of play_game after a split: both the first card
of the first hand and the first card of the second hand are Aces. -/
def ace_split (p : Player) : Bool :=
  match p.hand.cards.head?, p.second_hand with
  | some c1, some sh =>
    match sh.cards.head? with
    | some c2 => c1.isAce && c2.isAce
    | none => false
  | _, _ => false

/-- The primary decision while-loop of play_game (lines 446-484), driven
by an explicit list of provider answers; returns the player, the deck
and the unconsumed answers.  `none` models an exhausted deck or an
exhausted provider while the loop still wants input. -/
def playerLoop : List Choice → Deck → Player → Option (Player × Deck × List Choice)
  | choices, deck, p =>
    if p.hand.value < LIMIT then
      match choices with
      | [] => none
      | ch :: rest =>
        if splitOffered p then
          match ch with
          | .P =>
            match p.split_hand deck with
            | some (p2, d2) =>
              if ace_split p2 then some ({ p2 with stand := true }, d2, rest)
              else playerLoop rest d2 p2
            | none => none
          | .H =>
            match Deck.deal deck with
            | some (c, d2) => playerLoop rest d2 { p with hand := p.hand.draw_card c }
            | none => none
          | .S => some ({ p with stand := true }, deck, rest)
          | .D amt =>
            match double_down p p.hand deck p.wager amt with
            | .ok w p2 h2 d2 => some ({ p2 with wager := w, hand := h2 }, d2, rest)
            | .retry => playerLoop rest deck p
            | .stuck => none
          | .invalid => playerLoop rest deck p
        else
          match ch with
          | .H =>
            match Deck.deal deck with
            | some (c, d2) => playerLoop rest d2 { p with hand := p.hand.draw_card c }
            | none => none
          | .S => some ({ p with stand := true }, deck, rest)
          | .D amt =>
            match double_down p p.hand deck p.wager amt with
            | .ok w p2 h2 d2 => some ({ p2 with wager := w, hand := h2 }, d2, rest)
            | .retry => playerLoop rest deck p
            | .stuck => none
          | _ => playerLoop rest deck p
    else some (p, deck, choices)

/-- Lines 486-491 of play_game, run right after the primary loop: at
exactly LIMIT the player stands automatically; above LIMIT the wager is
forfeited and the player is explicitly left not standing. -/
def after_primary_loop (p : Player) : Player :=
  let p1 := if p.hand.value = LIMIT then { p with stand := true } else p
  if p1.hand.value > LIMIT then { p1 with stand := false } else p1

/-- The second-hand decision while-loop (lines 497-515): like the
primary loop but with no split option and acting on the second hand and
second wager. -/
def secondLoop : List Choice → Deck → Player → Option (Player × Deck × List Choice)
  | choices, deck, p =>
    match p.second_hand with
    | none => some (p, deck, choices)
    | some sh =>
      if sh.value < LIMIT then
        match choices with
        | [] => none
        | ch :: rest =>
          match ch with
          | .H =>
            match Deck.deal deck with
            | some (c, d2) => secondLoop rest d2 { p with second_hand := some (sh.draw_card c) }
            | none => none
          | .S => some ({ p with stand := true }, deck, rest)
          | .D amt =>
            match double_down p sh deck (p.second_wager.getD 0) amt with
            | .ok w p2 h2 d2 =>
              some ({ p2 with second_wager := some w, second_hand := some h2 }, d2, rest)
            | .retry => secondLoop rest deck p
            | .stuck => none
          | _ => secondLoop rest deck p
      else some (p, deck, choices)

/-- Lines 517-523 of play_game, run after the second-hand loop: at
exactly LIMIT the player stands; above LIMIT the second wager is
forfeited (the stand flag is rewritten to False only when it was not
already True, which leaves it unchanged either way). -/
def after_second_loop (p : Player) : Player :=
  match p.second_hand with
  | some sh =>
    let p1 := if sh.value = LIMIT then { p with stand := true } else p
    if sh.value > LIMIT then
      (if p1.stand ≠ true then { p1 with stand := false } else p1)
    else p1
  | none => p

/-- Lines 495-523 of play_game: the second hand is played only when it
exists, is nonempty (a Python truthiness test) and does not start with
an Ace. -/
def secondPhase (choices : List Choice) (deck : Deck) (p : Player) :
    Option (Player × Deck × List Choice) :=
  match p.second_hand with
  | some sh =>
    match sh.cards.head? with
    | some c0 =>
      if !c0.isAce then
        match secondLoop choices deck p with
        | some (p3, d3, rem3) => some (after_second_loop p3, d3, rem3)
        | none => none
      else some (p, deck, choices)
    | none => some (p, deck, choices)
  | none => some (p, deck, choices)

/-- A full player turn (lines 444-523): skipped entirely unless the
line-445 guard holds; otherwise the primary loop, the post-loop
bookkeeping and the second-hand phase run in order. -/
def playerTurn (choices : List Choice) (deck : Deck) (p : Player) :
    Option (Player × Deck × List Choice) :=
  if player_turn_guard p then
    match playerLoop choices deck p with
    | some (p1, d1, rem1) => secondPhase rem1 d1 (after_primary_loop p1)
    | none => none
  else some (p, deck, choices)

/-- Outcome categories of the payout calculator in §4.3 of the design. -/
inductive Outcome
  | naturalWin
  | win
  | push
  | loss
deriving DecidableEq

/-- The pure settlement function exactly as §4.3 of the design states
it: natural-blackjack win pays the wager plus the floor of 1.5 times the
wager, an ordinary win pays twice the wager, a push returns the wager,
a loss returns nothing.  This definition follows the design text and is
compared against the source's payout code. -/
def settle : Outcome → Int → Int
  | .naturalWin, w => w + Int.fdiv (3 * w) 2
  | .win, w => 2 * w
  | .push, w => w
  | .loss, _ => 0

/-- Demote the first Ace currently worth 11 (if any) to 1. -/
def demoteFirstAce11 : List Card → Option (List Card)
  | [] => none
  | c :: cs =>
    if c.isAce ∧ c.points = 11 then some ({ c with points := 1 } :: cs)
    else (demoteFirstAce11 cs).map (c :: ·)

/-- Number of Aces currently worth 11 in a list of cards. -/
def countAces11 (cs : List Card) : Nat :=
  cs.countP fun c => c.isAce && c.points = 11

theorem demoteFirstAce11_count {cs cs2 : List Card}
    (h : demoteFirstAce11 cs = some cs2) : countAces11 cs2 < countAces11 cs := by
  induction cs generalizing cs2 with
  | nil => simp [demoteFirstAce11] at h
  | cons c cs ih =>
    by_cases hc : c.isAce = true ∧ c.points = 11
    · simp [demoteFirstAce11, hc] at h
      subst h
      simp [countAces11, List.countP_cons, hc.1, hc.2]
    · simp [demoteFirstAce11, hc] at h
      obtain ⟨cs3, h3, rfl⟩ := h
      have hb : (c.isAce && decide (c.points = 11)) = false := by
        by_cases hA : c.isAce = true
        · have hp : ¬ c.points = 11 := fun hp => hc ⟨hA, hp⟩
          simp [hA, hp]
        · simp [Bool.not_eq_true] at hA
          simp [hA]
      have hlt := ih h3
      simp [countAces11, List.countP_cons, hb] at *
      omega

/-- The Ace-revaluation procedure as §4.1 of the design words it:
while the value exceeds LIMIT, demote one Ace currently worth 11 at a
time, stopping as soon as the value is within LIMIT or no such Ace
remains.  This definition follows the design text and is compared
against Hand.reset_ace_value. -/
def reevaluateAcesSpec (h : Hand) : Hand :=
  if h.value > LIMIT then
    match hd : demoteFirstAce11 h.cards with
    | some cs2 => reevaluateAcesSpec { h with cards := cs2, value := h.value - 10 }
    | none => h
  else h
termination_by countAces11 h.cards
decreasing_by
  simpa using demoteFirstAce11_count hd

theorem rankChar_injective : ∀ r s : Rank, rankChar r = rankChar s → r = s := by
  decide

theorem rankPoints_le_eleven : ∀ r : Rank, rankPoints r ≤ 11 := by
  decide

theorem rankPoints_le_ten : ∀ r : Rank, r ≠ Rank.A → rankPoints r ≤ 10 := by
  decide

theorem tdiv_three_eq_fdiv_three {w : Int} (hw : 0 ≤ w) :
    Int.tdiv (3 * w) 2 = Int.fdiv (3 * w) 2 := by
  have h3 : (0 : Int) ≤ 3 * w := by omega
  rw [Int.tdiv_eq_ediv h3 (by norm_num), Int.fdiv_eq_ediv _ (by norm_num)]

/-- Claim C1: settlement amounts per outcome are exact.  A natural
blackjack win credits the wager plus the floor of 1.5 times the wager; a
win against the dealer (dealer bust or strictly higher player value)
credits twice the wager; a push credits exactly the wager; a loss
credits nothing. -/
theorem settle_amounts_exact (p : Player) (dealer_hand : Hand) (hw : 0 ≤ p.wager) :
    (p.hand.blackjack = true →
       (payout_natural_blackjacks_one p).money = p.money + settle Outcome.naturalWin p.wager)
  ∧ (p.stand = true → p.hand.value ≤ LIMIT → p.second_hand = none →
       (payout_after_dealer_bust_one p).money = p.money + settle Outcome.win p.wager)
  ∧ (dealer_hand.value > p.hand.value →
       (compare_hand p p.hand dealer_hand p.wager).money = p.money + settle Outcome.loss p.wager)
  ∧ (dealer_hand.value = p.hand.value →
       (compare_hand p p.hand dealer_hand p.wager).money = p.money + settle Outcome.push p.wager)
  ∧ (p.hand.value > dealer_hand.value →
       (compare_hand p p.hand dealer_hand p.wager).money = p.money + settle Outcome.win p.wager) := by
  refine ⟨?_, ?_, ?_, ?_, ?_⟩
  · intro hbj
    simp [payout_natural_blackjacks_one, hbj, settle, natural_blackjack_winnings,
      tdiv_three_eq_fdiv_three hw]
  · intro hstand hle hsec
    simp [payout_after_dealer_bust_one, hstand, hle, payout_hand, hsec, settle]
  · intro hgt
    simp [compare_hand, hgt, settle]
  · intro heq
    have hngt : ¬ dealer_hand.value > p.hand.value := by omega
    simp [compare_hand, hngt, heq, settle]
  · intro hgt
    have hngt : ¬ dealer_hand.value > p.hand.value := by omega
    have hne : ¬ dealer_hand.value = p.hand.value := by omega
    simp [compare_hand, hngt, hne, payout_hand, settle]

theorem settle_amounts_exact_witness :
    (payout_natural_blackjacks_one
        ⟨"Ada", 990, false, ⟨[⟨Rank.A, 11⟩, ⟨Rank.K, 10⟩], 21, true⟩, 10, false, none, none⟩).money
      = 990 + settle Outcome.naturalWin 10
  ∧ (compare_hand
        ⟨"Ada", 990, false, ⟨[⟨Rank.n9, 9⟩, ⟨Rank.K, 10⟩], 19, false⟩, 10, true, none, none⟩
        ⟨[⟨Rank.n9, 9⟩, ⟨Rank.K, 10⟩], 19, false⟩
        ⟨[⟨Rank.n8, 8⟩, ⟨Rank.K, 10⟩], 18, false⟩ 10).money = 990 + settle Outcome.win 10 := by
  constructor
  · exact (settle_amounts_exact
      ⟨"Ada", 990, false, ⟨[⟨Rank.A, 11⟩, ⟨Rank.K, 10⟩], 21, true⟩, 10, false, none, none⟩
      ⟨[], 0, false⟩ (by decide)).1 (by decide)
  · exact (settle_amounts_exact
      ⟨"Ada", 990, false, ⟨[⟨Rank.n9, 9⟩, ⟨Rank.K, 10⟩], 19, false⟩, 10, true, none, none⟩
      ⟨[⟨Rank.n8, 8⟩, ⟨Rank.K, 10⟩], 18, false⟩ (by decide)).2.2.2.2 (by decide)

/-- Claim C2: when the dealer holds a natural blackjack, every player
with a natural blackjack pushes (the wager comes back), every other
player forfeits the wager and is marked standing, the dealer's drawing
turn is never triggered, and no player passes the decision-turn guard,
so nobody draws another card that round. -/
theorem dealer_natural_blackjack_settlement (dealer_hand : Hand) (ps : List Player)
    (hbj : dealer_hand.blackjack = true) :
    (∀ p ∈ ps,
        (p.hand.blackjack = true →
           (handle_dealer_blackjack_one p).money = p.money + p.wager
         ∧ (handle_dealer_blackjack_one p).stand = p.stand)
      ∧ (p.hand.blackjack = false →
           (handle_dealer_blackjack_one p).money = p.money
         ∧ (handle_dealer_blackjack_one p).stand = true)
      ∧ player_turn_guard (handle_dealer_blackjack_one p) = false)
  ∧ dealer_turn_triggered (handle_dealer_blackjack ps) dealer_hand = false := by
  constructor
  · intro p _
    refine ⟨?_, ?_, ?_⟩
    · intro hp
      simp [handle_dealer_blackjack_one, hp]
    · intro hp
      simp [handle_dealer_blackjack_one, hp]
    · rcases hp : p.hand.blackjack with _ | _
      · simp [handle_dealer_blackjack_one, hp, player_turn_guard]
      · simp [handle_dealer_blackjack_one, hp, player_turn_guard]
  · simp [dealer_turn_triggered, hbj]

theorem dealer_natural_blackjack_settlement_witness :
    (∀ p ∈ [(⟨"Bea", 990, false, ⟨[⟨Rank.K, 10⟩, ⟨Rank.Q, 10⟩], 20, false⟩, 10, false, none, none⟩ : Player)],
        (p.hand.blackjack = true →
           (handle_dealer_blackjack_one p).money = p.money + p.wager
         ∧ (handle_dealer_blackjack_one p).stand = p.stand)
      ∧ (p.hand.blackjack = false →
           (handle_dealer_blackjack_one p).money = p.money
         ∧ (handle_dealer_blackjack_one p).stand = true)
      ∧ player_turn_guard (handle_dealer_blackjack_one p) = false)
  ∧ dealer_turn_triggered
      (handle_dealer_blackjack
        [⟨"Bea", 990, false, ⟨[⟨Rank.K, 10⟩, ⟨Rank.Q, 10⟩], 20, false⟩, 10, false, none, none⟩])
      ⟨[⟨Rank.A, 11⟩, ⟨Rank.K, 10⟩], 21, true⟩ = false :=
  dealer_natural_blackjack_settlement ⟨[⟨Rank.A, 11⟩, ⟨Rank.K, 10⟩], 21, true⟩
    [⟨"Bea", 990, false, ⟨[⟨Rank.K, 10⟩, ⟨Rank.Q, 10⟩], 20, false⟩, 10, false, none, none⟩]
    (by decide)

/-- Claim C5: a player whose single hand busts at the end of the
decision loop keeps the post-bet bankroll (the wager is forfeited), is
explicitly not marked standing, and is therefore skipped both by the
dealer-bust payout and by the dealer comparison. -/
theorem bust_forfeits_and_excluded (p : Player) (dealer_hand : Hand)
    (hsecond : p.second_hand = none) (hbust : p.hand.value > LIMIT) :
    (after_primary_loop p).stand = false
  ∧ (after_primary_loop p).money = p.money
  ∧ payout_after_dealer_bust_one (after_primary_loop p) = after_primary_loop p
  ∧ compare_multiple_one (after_primary_loop p) dealer_hand = after_primary_loop p := by
  have hne : ¬ p.hand.value = LIMIT := by
    unfold LIMIT at *
    omega
  refine ⟨?_, ?_, ?_, ?_⟩
  · simp [after_primary_loop, hne, hbust]
  · simp [after_primary_loop, hne, hbust]
  · simp [after_primary_loop, hne, hbust, payout_after_dealer_bust_one]
  · simp [after_primary_loop, hne, hbust, compare_multiple_one]

theorem bust_forfeits_and_excluded_witness :
    (after_primary_loop
        ⟨"Cal", 30, false, ⟨[⟨Rank.K, 10⟩, ⟨Rank.n9, 9⟩, ⟨Rank.n5, 5⟩], 24, false⟩, 20, false, none, none⟩).stand = false
  ∧ (after_primary_loop
        ⟨"Cal", 30, false, ⟨[⟨Rank.K, 10⟩, ⟨Rank.n9, 9⟩, ⟨Rank.n5, 5⟩], 24, false⟩, 20, false, none, none⟩).money = 30
  ∧ payout_after_dealer_bust_one
      (after_primary_loop
        ⟨"Cal", 30, false, ⟨[⟨Rank.K, 10⟩, ⟨Rank.n9, 9⟩, ⟨Rank.n5, 5⟩], 24, false⟩, 20, false, none, none⟩)
      = after_primary_loop
          ⟨"Cal", 30, false, ⟨[⟨Rank.K, 10⟩, ⟨Rank.n9, 9⟩, ⟨Rank.n5, 5⟩], 24, false⟩, 20, false, none, none⟩
  ∧ compare_multiple_one
      (after_primary_loop
        ⟨"Cal", 30, false, ⟨[⟨Rank.K, 10⟩, ⟨Rank.n9, 9⟩, ⟨Rank.n5, 5⟩], 24, false⟩, 20, false, none, none⟩)
      ⟨[⟨Rank.K, 10⟩, ⟨Rank.n8, 8⟩], 18, false⟩
      = after_primary_loop
          ⟨"Cal", 30, false, ⟨[⟨Rank.K, 10⟩, ⟨Rank.n9, 9⟩, ⟨Rank.n5, 5⟩], 24, false⟩, 20, false, none, none⟩ :=
  bust_forfeits_and_excluded
    ⟨"Cal", 30, false, ⟨[⟨Rank.K, 10⟩, ⟨Rank.n9, 9⟩, ⟨Rank.n5, 5⟩], 24, false⟩, 20, false, none, none⟩
    ⟨[⟨Rank.K, 10⟩, ⟨Rank.n8, 8⟩], 18, false⟩ rfl (by decide)

/-- Claim C10: validate_wager rejects only amounts strictly above the
maximum, so every integer wager at most the bankroll is accepted,
including negative ones, which strictly increase the bankroll; the same
validator gates the double-down additional wager, which is therefore
also accepted when negative. -/
theorem wager_validation_only_upper_bound (p : Player) (hand : Hand) (c : Card) (d2 : Deck)
    (w a : Int) :
    (∀ x m : Int, validate_wager x m = true ↔ x ≤ m)
  ∧ (w ≤ p.money → p.make_bet w = some { p with wager := w, money := p.money - w })
  ∧ (w ≤ p.money → w < 0 → ∃ p2, p.make_bet w = some p2 ∧ p.money < p2.money)
  ∧ (a ≤ min w p.money →
       double_down p hand (c :: d2) w a =
         DDResult.ok (w + a) { p with money := p.money - a, stand := true }
           (hand.draw_card c) d2) := by
  refine ⟨?_, ?_, ?_, ?_⟩
  · intro x m
    simp only [validate_wager]
    split
    · constructor
      · intro h
        exact absurd h (by simp)
      · omega
    · simp
      omega
  · intro hle
    have hv : validate_wager w p.money = true := by
      simp only [validate_wager]
      split
      · omega
      · rfl
    simp [Player.make_bet, hv]
  · intro hle hneg
    have hv : validate_wager w p.money = true := by
      simp only [validate_wager]
      split
      · omega
      · rfl
    refine ⟨{ p with wager := w, money := p.money - w }, by simp [Player.make_bet, hv], ?_⟩
    simp
    omega
  · intro hle
    have hv : validate_wager a (min w p.money) = true := by
      simp only [validate_wager]
      split
      · omega
      · rfl
    simp [double_down, hv, Deck.deal]

theorem wager_validation_only_upper_bound_witness :
    ((⟨"Dan", 50, false, Hand.empty, 0, false, none, none⟩ : Player).make_bet (-5)
       = some { (⟨"Dan", 50, false, Hand.empty, 0, false, none, none⟩ : Player) with
                  wager := -5, money := 50 - (-5) })
  ∧ double_down (⟨"Dan", 55, false, Hand.empty, 20, false, none, none⟩ : Player)
      ⟨[⟨Rank.n5, 5⟩, ⟨Rank.n9, 9⟩], 14, false⟩ [⟨Rank.n3, 3⟩] 20 (-4)
      = DDResult.ok (20 + (-4))
          { (⟨"Dan", 55, false, Hand.empty, 20, false, none, none⟩ : Player) with
              money := 55 - (-4), stand := true }
          (Hand.draw_card ⟨[⟨Rank.n5, 5⟩, ⟨Rank.n9, 9⟩], 14, false⟩ ⟨Rank.n3, 3⟩) [] := by
  constructor
  · exact (wager_validation_only_upper_bound
      ⟨"Dan", 50, false, Hand.empty, 0, false, none, none⟩ Hand.empty ⟨Rank.n3, 3⟩ [] (-5) 0).2.1
      (by decide)
  · exact (wager_validation_only_upper_bound
      ⟨"Dan", 55, false, Hand.empty, 20, false, none, none⟩
      ⟨[⟨Rank.n5, 5⟩, ⟨Rank.n9, 9⟩], 14, false⟩ ⟨Rank.n3, 3⟩ [] 20 (-4)).2.2.2 (by decide)

theorem add_card_inv {h : Hand} (c : Card) (hi : handInv h) : handInv (h.add_card c) := by
  unfold Hand.add_card
  by_cases hc : c.isAce = true ∧ h.value > 10
  · simp only [if_pos hc]
    simp [handInv] at *
    omega
  · simp only [if_neg hc]
    simp [handInv] at *
    omega

theorem demoteAces_sum (cs : List Card) :
    ((demoteAces cs).1.map Card.points).sum + (demoteAces cs).2 = (cs.map Card.points).sum := by
  induction cs with
  | nil => simp [demoteAces]
  | cons c cs ih =>
    by_cases hc : c.isAce = true ∧ c.points = 11
    · simp [demoteAces, hc]
      omega
    · simp [demoteAces, hc]
      omega

theorem reset_ace_value_inv {h : Hand} (hi : handInv h) : handInv h.reset_ace_value := by
  unfold Hand.reset_ace_value
  by_cases hv : h.value > LIMIT
  · simp only [if_pos hv]
    have := demoteAces_sum h.cards
    simp [handInv] at *
    omega
  · simp only [if_neg hv]
    exact hi

theorem dropLast_points_sum {cs : List Card} {sc : Card} (hg : cs.getLast? = some sc) :
    (cs.dropLast.map Card.points).sum + sc.points = (cs.map Card.points).sum := by
  have hne : cs ≠ [] := by
    intro h
    subst h
    simp at hg
  have hsc : cs.getLast hne = sc := by
    have := List.getLast?_eq_getLast cs hne
    rw [this] at hg
    exact Option.some.inj hg
  conv_rhs => rw [← List.dropLast_append_getLast hne]
  rw [hsc, List.map_append, List.sum_append]
  simp

theorem split_hand_eq (p : Player) (sc c1 c2 : Card) (dRest : Deck)
    (hg : p.hand.cards.getLast? = some sc) :
    p.split_hand (c1 :: c2 :: dRest) = some
      ({ p with
          hand := ({ p.hand with
            cards := p.hand.cards.dropLast
            value := p.hand.value - sc.points } : Hand).add_card c1
          second_hand :=
            some ((Hand.empty.add_card (if sc.isAce then { sc with points := 11 } else sc)).add_card c2)
          second_wager := some p.wager
          money := p.money - p.wager }, dRest) := by
  unfold Player.split_hand
  rw [hg]
  simp [Deck.deal]

/-- Claim C3: after add_card, reset_ace_value, draw_card (hit) and
split_hand, every resulting hand's cached value equals the sum of its
cards' current points — including both hands produced by a split, and in
particular a split of a previously demoted Ace. -/
theorem cached_value_invariant (h : Hand) (c : Card) (p : Player) (deck : Deck)
    (hi : handInv h) (hip : handInv p.hand) :
    handInv (h.add_card c)
  ∧ handInv h.reset_ace_value
  ∧ handInv (h.draw_card c)
  ∧ (∀ p2 d2, p.split_hand deck = some (p2, d2) →
       handInv p2.hand ∧ ∀ sh, p2.second_hand = some sh → handInv sh) := by
  refine ⟨add_card_inv c hi, reset_ace_value_inv hi, reset_ace_value_inv (add_card_inv c hi), ?_⟩
  intro p2 d2 hsplit
  rcases hg : p.hand.cards.getLast? with _ | sc
  · unfold Player.split_hand at hsplit
    rw [hg] at hsplit
    simp at hsplit
  · rcases deck with _ | ⟨c1, _ | ⟨c2, dRest⟩⟩
    · unfold Player.split_hand at hsplit
      rw [hg] at hsplit
      simp [Deck.deal] at hsplit
    · unfold Player.split_hand at hsplit
      rw [hg] at hsplit
      simp [Deck.deal] at hsplit
    · rw [split_hand_eq p sc c1 c2 dRest hg] at hsplit
      have hinv1 : handInv ({ p.hand with
          cards := p.hand.cards.dropLast
          value := p.hand.value - sc.points } : Hand) := by
        have := dropLast_points_sum hg
        simp [handInv] at *
        omega
      have hinv2 : handInv ((Hand.empty.add_card
          (if sc.isAce then { sc with points := 11 } else sc)).add_card c2) := by
        refine add_card_inv c2 (add_card_inv _ ?_)
        simp [handInv, Hand.empty]
      have hpair := Option.some.inj hsplit
      rw [Prod.ext_iff] at hpair
      obtain ⟨hp2, hd2⟩ := hpair
      subst hp2
      refine ⟨add_card_inv c1 hinv1, ?_⟩
      intro sh hsh
      simp at hsh
      rw [← hsh]
      exact hinv2

theorem cached_value_invariant_witness :
    handInv ((⟨[⟨Rank.n5, 5⟩, ⟨Rank.n9, 9⟩], 14, false⟩ : Hand).add_card ⟨Rank.A, 11⟩)
  ∧ handInv (⟨[⟨Rank.n5, 5⟩, ⟨Rank.n9, 9⟩], 14, false⟩ : Hand).reset_ace_value
  ∧ handInv ((⟨[⟨Rank.n5, 5⟩, ⟨Rank.n9, 9⟩], 14, false⟩ : Hand).draw_card ⟨Rank.A, 11⟩)
  ∧ (∀ p2 d2,
      (⟨"Eve", 100, false, ⟨[⟨Rank.A, 11⟩, ⟨Rank.A, 1⟩], 12, false⟩, 10, false, none, none⟩ :
          Player).split_hand [⟨Rank.n7, 7⟩, ⟨Rank.n9, 9⟩] = some (p2, d2) →
      handInv p2.hand ∧ ∀ sh, p2.second_hand = some sh → handInv sh) :=
  cached_value_invariant ⟨[⟨Rank.n5, 5⟩, ⟨Rank.n9, 9⟩], 14, false⟩ ⟨Rank.A, 11⟩
    ⟨"Eve", 100, false, ⟨[⟨Rank.A, 11⟩, ⟨Rank.A, 1⟩], 12, false⟩, 10, false, none, none⟩
    [⟨Rank.n7, 7⟩, ⟨Rank.n9, 9⟩] rfl rfl

/-- Claim C4: splitting is offered exactly when the hand has two cards
of equal rank, no split has happened yet, and the bankroll covers the
wager; after a successful split both hands hold exactly two cards, the
two wagers sum to twice the original, and the matching wager has been
deducted from the bankroll. -/
theorem split_offer_iff_and_post (p : Player) (deck : Deck) :
    (splitOffered p = true ↔
       p.hand.cards.length = 2
       ∧ (∀ c1 c2, p.hand.cards = [c1, c2] → c1.rank = c2.rank)
       ∧ p.second_hand = none
       ∧ p.wager ≤ p.money)
  ∧ (splitOffered p = true → ∀ p2 d2, p.split_hand deck = some (p2, d2) →
       p2.hand.cards.length = 2
       ∧ (∃ sh, p2.second_hand = some sh ∧ sh.cards.length = 2)
       ∧ (∃ w2, p2.second_wager = some w2 ∧ p2.wager + w2 = 2 * p.wager)
       ∧ p2.money = p.money - p.wager) := by
  constructor
  · rcases hc : p.hand.cards with _ | ⟨a, _ | ⟨b, _ | ⟨x, xs⟩⟩⟩
    · simp [splitOffered, hc]
    · simp [splitOffered, hc]
    · simp only [splitOffered, hc]
      constructor
      · intro hyp
        simp at hyp
        obtain ⟨h1, h2, h3⟩ := hyp
        refine ⟨rfl, ?_, h2, h3⟩
        intro c1 c2 hcc
        have h1a : a = c1 := (List.cons.inj hcc).1
        have h1b : b = c2 := (List.cons.inj (List.cons.inj hcc).2).1
        subst h1a
        subst h1b
        exact rankChar_injective a.rank b.rank h1
      · intro hyp
        obtain ⟨_, h1, h2, h3⟩ := hyp
        simp [h1 a b rfl, h2, h3]
    · simp [splitOffered, hc]
  · intro hoff p2 d2 hsplit
    have hlen : p.hand.cards.length = 2 := by
      rcases hc : p.hand.cards with _ | ⟨a, _ | ⟨b, _ | ⟨x, xs⟩⟩⟩ <;>
        simp [splitOffered, hc] at hoff <;> simp
    rcases hc : p.hand.cards with _ | ⟨a, _ | ⟨b, _ | ⟨x, xs⟩⟩⟩
    · simp [hc] at hlen
    · simp [hc] at hlen
    · have hg : p.hand.cards.getLast? = some b := by
        simp [hc]
      rcases deck with _ | ⟨c1, _ | ⟨c2, dRest⟩⟩
      · unfold Player.split_hand at hsplit
        rw [hg] at hsplit
        simp [Deck.deal] at hsplit
      · unfold Player.split_hand at hsplit
        rw [hg] at hsplit
        simp [Deck.deal] at hsplit
      · rw [split_hand_eq p b c1 c2 dRest hg] at hsplit
        have hpair := Option.some.inj hsplit
        rw [Prod.ext_iff] at hpair
        obtain ⟨hp2, _⟩ := hpair
        subst hp2
        refine ⟨?_, ⟨_, rfl, ?_⟩, ⟨p.wager, rfl, by ring⟩, rfl⟩
        · simp [Hand.add_card, hc]
        · simp [Hand.add_card, Hand.empty]
    · simp [hc] at hlen

theorem split_offer_iff_and_post_witness :
    (⟨"Fay", 90, false, ⟨[⟨Rank.n8, 8⟩, ⟨Rank.n3, 3⟩], 11, false⟩, 10, false,
        some ⟨[⟨Rank.n8, 8⟩, ⟨Rank.n4, 4⟩], 12, false⟩, some 10⟩ : Player).hand.cards.length = 2
  ∧ (∃ sh, (⟨"Fay", 90, false, ⟨[⟨Rank.n8, 8⟩, ⟨Rank.n3, 3⟩], 11, false⟩, 10, false,
        some ⟨[⟨Rank.n8, 8⟩, ⟨Rank.n4, 4⟩], 12, false⟩, some 10⟩ : Player).second_hand = some sh
      ∧ sh.cards.length = 2)
  ∧ (∃ w2, (⟨"Fay", 90, false, ⟨[⟨Rank.n8, 8⟩, ⟨Rank.n3, 3⟩], 11, false⟩, 10, false,
        some ⟨[⟨Rank.n8, 8⟩, ⟨Rank.n4, 4⟩], 12, false⟩, some 10⟩ : Player).second_wager = some w2
      ∧ (⟨"Fay", 90, false, ⟨[⟨Rank.n8, 8⟩, ⟨Rank.n3, 3⟩], 11, false⟩, 10, false,
           some ⟨[⟨Rank.n8, 8⟩, ⟨Rank.n4, 4⟩], 12, false⟩, some 10⟩ : Player).wager + w2 = 2 * 10)
  ∧ (⟨"Fay", 90, false, ⟨[⟨Rank.n8, 8⟩, ⟨Rank.n3, 3⟩], 11, false⟩, 10, false,
        some ⟨[⟨Rank.n8, 8⟩, ⟨Rank.n4, 4⟩], 12, false⟩, some 10⟩ : Player).money = 100 - 10 :=
  (split_offer_iff_and_post
    ⟨"Fay", 100, false, ⟨[⟨Rank.n8, 8⟩, ⟨Rank.n8, 8⟩], 16, false⟩, 10, false, none, none⟩
    [⟨Rank.n3, 3⟩, ⟨Rank.n4, 4⟩]).2 (by decide)
    ⟨"Fay", 90, false, ⟨[⟨Rank.n8, 8⟩, ⟨Rank.n3, 3⟩], 11, false⟩, 10, false,
      some ⟨[⟨Rank.n8, 8⟩, ⟨Rank.n4, 4⟩], 12, false⟩, some 10⟩ [] (by decide)

theorem countAces11_zero {cs : List Card} (h : countAces11 cs = 0) :
    demoteAces cs = (cs, 0) ∧ demoteFirstAce11 cs = none := by
  induction cs with
  | nil => simp [demoteAces, demoteFirstAce11]
  | cons c cs ih =>
    by_cases hc : c.isAce = true ∧ c.points = 11
    · exfalso
      simp [countAces11, List.countP_cons, hc.1, hc.2] at h
    · have hb : (c.isAce && decide (c.points = 11)) = false := by
        by_cases hA : c.isAce = true
        · have hp : ¬ c.points = 11 := fun hp => hc ⟨hA, hp⟩
          simp [hA, hp]
        · simp [Bool.not_eq_true] at hA
          simp [hA]
      have htail : countAces11 cs = 0 := by
        simp [countAces11, List.countP_cons, hb] at h ⊢
        exact h
      obtain ⟨ih1, ih2⟩ := ih htail
      constructor
      · simp [demoteAces, hc, ih1]
      · simp [demoteFirstAce11, hc, ih2]

theorem countAces11_one {cs : List Card} (h : countAces11 cs = 1) :
    ∃ cs2, demoteAces cs = (cs2, 10) ∧ demoteFirstAce11 cs = some cs2 ∧ countAces11 cs2 = 0 := by
  induction cs with
  | nil => simp [countAces11] at h
  | cons c cs ih =>
    by_cases hc : c.isAce = true ∧ c.points = 11
    · have htail : countAces11 cs = 0 := by
        simp [countAces11, List.countP_cons, hc.1, hc.2] at h ⊢
        exact h
      obtain ⟨h1, _⟩ := countAces11_zero htail
      refine ⟨{ c with points := 1 } :: cs, ?_, ?_, ?_⟩
      · simp [demoteAces, hc, h1]
      · simp [demoteFirstAce11, hc]
      · simp [countAces11, List.countP_cons] at htail ⊢
        exact htail
    · have hb : (c.isAce && decide (c.points = 11)) = false := by
        by_cases hA : c.isAce = true
        · have hp : ¬ c.points = 11 := fun hp => hc ⟨hA, hp⟩
          simp [hA, hp]
        · simp [Bool.not_eq_true] at hA
          simp [hA]
      have htail : countAces11 cs = 1 := by
        simp [countAces11, List.countP_cons, hb] at h ⊢
        exact h
      obtain ⟨cs2, ih1, ih2, ih3⟩ := ih htail
      refine ⟨c :: cs2, ?_, ?_, ?_⟩
      · simp [demoteAces, hc, ih1]
      · simp [demoteFirstAce11, hc, ih2]
      · simp [countAces11, List.countP_cons, hb] at ih3 ⊢
        exact ih3

/-- Claim C9 counterexample: on the hand [A(11), A(11)] with cached
value 22, Hand.reset_ace_value demotes both Aces, yielding value 2,
whereas the procedure the claim describes (demote one Ace at a time
until the value is at most 21 or no Ace worth 11 remains) stops after
the first demotion at value 12. -/
theorem reset_ace_value_not_one_at_a_time :
    (Hand.reset_ace_value ⟨[⟨Rank.A, 11⟩, ⟨Rank.A, 11⟩], 22, false⟩).value = 2
  ∧ (reevaluateAcesSpec ⟨[⟨Rank.A, 11⟩, ⟨Rank.A, 11⟩], 22, false⟩).value = 12
  ∧ Hand.reset_ace_value ⟨[⟨Rank.A, 11⟩, ⟨Rank.A, 11⟩], 22, false⟩
      ≠ reevaluateAcesSpec ⟨[⟨Rank.A, 11⟩, ⟨Rank.A, 11⟩], 22, false⟩ := by
  have hspec : reevaluateAcesSpec ⟨[⟨Rank.A, 11⟩, ⟨Rank.A, 11⟩], 22, false⟩
      = ⟨[⟨Rank.A, 1⟩, ⟨Rank.A, 11⟩], 12, false⟩ := by
    rw [reevaluateAcesSpec.eq_def]
    norm_num [LIMIT]
    split
    · rename_i cs2 hd
      have he : demoteFirstAce11 [⟨Rank.A, 11⟩, ⟨Rank.A, 11⟩]
          = some [⟨Rank.A, 1⟩, ⟨Rank.A, 11⟩] := by decide
      rw [he] at hd
      have hc := Option.some.inj hd
      subst hc
      rw [reevaluateAcesSpec.eq_def]
      norm_num [LIMIT]
    · rename_i hd
      exact absurd hd (by decide)
  refine ⟨by decide, ?_, ?_⟩
  · rw [hspec]
  · rw [hspec]
    decide

/-- Claim C9 (amended): when the value exceeds 21, reset_ace_value
demotes every Ace currently worth 11 in a single pass without re-testing
the 21 threshold; on any hand holding at most one Ace worth 11 — which
includes every hand add_card can build — this coincides with the
demote-one-at-a-time-until-at-most-21 procedure, and on a hand whose
value is already at most 21 it leaves the hand unchanged. -/
theorem reset_ace_value_agrees_when_at_most_one_ace (h : Hand)
    (hcount : countAces11 h.cards ≤ 1) :
    h.reset_ace_value = reevaluateAcesSpec h
  ∧ (h.value ≤ LIMIT → h.reset_ace_value = h) := by
  constructor
  · by_cases hv : h.value > LIMIT
    · rcases Nat.le_one_iff_eq_zero_or_eq_one.mp hcount with h0 | h1
      · obtain ⟨hd1, hdn⟩ := countAces11_zero h0
        unfold Hand.reset_ace_value
        rw [reevaluateAcesSpec.eq_def]
        simp only [if_pos hv, hd1]
        split
        · rename_i cs2 hd
          rw [hdn] at hd
          exact absurd hd (by simp)
        · simp
      · obtain ⟨cs2, hd1, hd2, hd3⟩ := countAces11_one h1
        obtain ⟨he1, hen⟩ := countAces11_zero hd3
        unfold Hand.reset_ace_value
        rw [reevaluateAcesSpec.eq_def]
        simp only [if_pos hv, hd1]
        split
        · rename_i cs2b hd
          rw [hd2] at hd
          have hc := Option.some.inj hd
          subst hc
          rw [reevaluateAcesSpec.eq_def]
          by_cases hv2 : h.value - 10 > LIMIT
          · simp only [if_pos hv2]
            split
            · rename_i cs3 hd3b
              have hx : demoteFirstAce11 cs2 = some cs3 := hd3b
              rw [hen] at hx
              exact absurd hx (by simp)
            · rfl
          · simp only [if_neg hv2]
        · rename_i hd
          rw [hd2] at hd
          exact absurd hd (by simp)
    · unfold Hand.reset_ace_value
      rw [reevaluateAcesSpec.eq_def]
      simp [hv]
  · intro hle
    unfold Hand.reset_ace_value
    have hv : ¬ h.value > LIMIT := by omega
    simp [hv]

theorem reset_ace_value_agrees_witness :
    (⟨[⟨Rank.A, 11⟩, ⟨Rank.K, 10⟩, ⟨Rank.n5, 5⟩], 26, false⟩ : Hand).reset_ace_value
      = reevaluateAcesSpec ⟨[⟨Rank.A, 11⟩, ⟨Rank.K, 10⟩, ⟨Rank.n5, 5⟩], 26, false⟩
  ∧ ((⟨[⟨Rank.A, 11⟩, ⟨Rank.K, 10⟩, ⟨Rank.n5, 5⟩], 26, false⟩ : Hand).value ≤ LIMIT →
      (⟨[⟨Rank.A, 11⟩, ⟨Rank.K, 10⟩, ⟨Rank.n5, 5⟩], 26, false⟩ : Hand).reset_ace_value
        = ⟨[⟨Rank.A, 11⟩, ⟨Rank.K, 10⟩, ⟨Rank.n5, 5⟩], 26, false⟩) :=
  reset_ace_value_agrees_when_at_most_one_ace
    ⟨[⟨Rank.A, 11⟩, ⟨Rank.K, 10⟩, ⟨Rank.n5, 5⟩], 26, false⟩ (by decide)

/-- Claim C6: the dealer peeks exactly when the second-dealt (face-up)
card's current points equal 10 or the card is an Ace; and whenever the
peek condition fails on the dealer's freshly dealt 2-card hand, that
hand is not a natural blackjack, so the no-peek branch never masks a
dealer natural (including hands whose second Ace was demoted to 1). -/
theorem dealer_peek_exact (c1 c2 : Card) (h1 : c1.fresh) (h2 : c2.fresh) :
    (peek_condition (dealer_initial_hand c1 c2) = true ↔
       ∃ cl, (dealer_initial_hand c1 c2).cards.getLast? = some cl
         ∧ (cl.points = 10 ∨ cl.isAce = true))
  ∧ (peek_condition (dealer_initial_hand c1 c2) = false →
       ((dealer_initial_hand c1 c2).check_blackjack).blackjack = false) := by
  constructor
  · unfold peek_condition
    rcases hg : (dealer_initial_hand c1 c2).cards.getLast? with _ | cl
    · simp
    · simp
  · obtain ⟨r1, p1⟩ := c1
    obtain ⟨r2, p2⟩ := c2
    unfold Card.fresh at h1 h2
    simp only at h1 h2
    subst h1
    subst h2
    revert r1 r2
    decide

theorem dealer_peek_exact_witness :
    (peek_condition (dealer_initial_hand ⟨Rank.n9, 9⟩ ⟨Rank.K, 10⟩) = true ↔
       ∃ cl, (dealer_initial_hand ⟨Rank.n9, 9⟩ ⟨Rank.K, 10⟩).cards.getLast? = some cl
         ∧ (cl.points = 10 ∨ cl.isAce = true))
  ∧ (peek_condition (dealer_initial_hand ⟨Rank.n9, 9⟩ ⟨Rank.K, 10⟩) = false →
       ((dealer_initial_hand ⟨Rank.n9, 9⟩ ⟨Rank.K, 10⟩).check_blackjack).blackjack = false) :=
  dealer_peek_exact ⟨Rank.n9, 9⟩ ⟨Rank.K, 10⟩ rfl rfl

/-- Claim C8: during the dealer's turn the dealer draws exactly while
the hand's value is strictly below 17 (so never on a value of 17 or
more, a soft 17 included), and whenever the draw loop exits normally the
dealer's final value is at least 17. -/
theorem dealer_policy_seventeen (deck : Deck) (h : Hand) :
    (17 ≤ h.value → dealer_draw_loop deck h = some (h, deck))
  ∧ (h.value < 17 → dealer_draw_loop deck h =
       (Deck.deal deck).bind fun cd => dealer_draw_loop cd.2 (h.draw_card cd.1))
  ∧ (∀ h2 d2, dealer_draw_loop deck h = some (h2, d2) → 17 ≤ h2.value) := by
  refine ⟨?_, ?_, ?_⟩
  · intro hge
    rw [dealer_draw_loop.eq_def]
    have hlt : ¬ h.value < 17 := by omega
    simp [hlt]
  · intro hlt
    rw [dealer_draw_loop.eq_def]
    rcases deck with _ | ⟨c, d2⟩
    · simp [hlt, Deck.deal]
    · simp [hlt, Deck.deal]
  · suffices H : ∀ dk : Deck, ∀ hh h2 : Hand, ∀ d2 : Deck,
        dealer_draw_loop dk hh = some (h2, d2) → 17 ≤ h2.value by
      intro h2 d2
      exact H deck h h2 d2
    intro dk
    induction dk with
    | nil =>
      intro hh h2 d2 hl
      rw [dealer_draw_loop.eq_def] at hl
      by_cases hv : hh.value < 17
      · simp [hv] at hl
      · simp [hv] at hl
        obtain ⟨hl1, _⟩ := hl
        rw [← hl1]
        omega
    | cons c d ih =>
      intro hh h2 d2 hl
      rw [dealer_draw_loop.eq_def] at hl
      by_cases hv : hh.value < 17
      · simp only [if_pos hv] at hl
        exact ih (hh.draw_card c) h2 d2 hl
      · simp [hv] at hl
        obtain ⟨hl1, _⟩ := hl
        rw [← hl1]
        omega

theorem dealer_policy_seventeen_witness :
    (17 ≤ (⟨[⟨Rank.A, 11⟩, ⟨Rank.n6, 6⟩], 17, false⟩ : Hand).value →
       dealer_draw_loop [⟨Rank.n5, 5⟩] ⟨[⟨Rank.A, 11⟩, ⟨Rank.n6, 6⟩], 17, false⟩
         = some (⟨[⟨Rank.A, 11⟩, ⟨Rank.n6, 6⟩], 17, false⟩, [⟨Rank.n5, 5⟩]))
  ∧ ((⟨[⟨Rank.A, 11⟩, ⟨Rank.n6, 6⟩], 17, false⟩ : Hand).value < 17 →
       dealer_draw_loop [⟨Rank.n5, 5⟩] ⟨[⟨Rank.A, 11⟩, ⟨Rank.n6, 6⟩], 17, false⟩
         = (Deck.deal [⟨Rank.n5, 5⟩]).bind fun cd =>
             dealer_draw_loop cd.2
               ((⟨[⟨Rank.A, 11⟩, ⟨Rank.n6, 6⟩], 17, false⟩ : Hand).draw_card cd.1))
  ∧ (∀ h2 d2,
       dealer_draw_loop [⟨Rank.n5, 5⟩] ⟨[⟨Rank.A, 11⟩, ⟨Rank.n6, 6⟩], 17, false⟩
         = some (h2, d2) → 17 ≤ h2.value) :=
  dealer_policy_seventeen [⟨Rank.n5, 5⟩] ⟨[⟨Rank.A, 11⟩, ⟨Rank.n6, 6⟩], 17, false⟩

/-- Claim C7: a player who splits a pair of Aces is immediately marked
standing, the decision loop ends consuming no further provider answers,
both resulting hands hold exactly two cards, exactly the two split
replacement cards leave the deck, and the second-hand phase is skipped,
so neither hand ever draws another card. -/
theorem split_aces_locks_standing (p : Player) (a b cB cA : Card) (dRest : Deck)
    (rest : List Choice)
    (hcards : p.hand.cards = [a, b]) (ha : a.rank = Rank.A) (hb : b.rank = Rank.A)
    (hpa : a.points = 11) (hpb : b.points = 1) (hv : p.hand.value = 12)
    (hbj : p.hand.blackjack = false) (hstand : p.stand = false)
    (hsh : p.second_hand = none) (hmoney : p.wager ≤ p.money)
    (hfB : cB.fresh) (hfA : cA.fresh) :
    ∃ p2, playerTurn (Choice.P :: rest) (cB :: cA :: dRest) p = some (p2, dRest, rest)
      ∧ p2.stand = true
      ∧ p2.hand.cards.length = 2
      ∧ ∃ sh, p2.second_hand = some sh ∧ sh.cards.length = 2 := by
  have hg : p.hand.cards.getLast? = some b := by simp [hcards]
  have hguard : player_turn_guard p = true := by simp [player_turn_guard, hbj, hstand]
  have hoff : splitOffered p = true := by
    simp [splitOffered, hcards, ha, hb, hsh, hmoney]
  have hsplit := split_hand_eq p b cB cA dRest hg
  have hE : Hand.empty.add_card (⟨Rank.A, 11⟩ : Card) = (⟨[⟨Rank.A, 11⟩], 11, false⟩ : Hand) := rfl
  have hace : ace_split ⟨p.name, p.money - p.wager, p.cashout,
      Hand.add_card ⟨[a], 11, false⟩ cB, p.wager, false,
      some (Hand.add_card ⟨[⟨Rank.A, 11⟩], 11, false⟩ cA), some p.wager⟩ = true := by
    simp [ace_split, Hand.add_card, Card.isAce, ha]
  have hPL : playerLoop (Choice.P :: rest) (cB :: cA :: dRest) p = some
      (⟨p.name, p.money - p.wager, p.cashout,
        Hand.add_card ⟨[a], 11, false⟩ cB, p.wager, true,
        some (Hand.add_card ⟨[⟨Rank.A, 11⟩], 11, false⟩ cA), some p.wager⟩, dRest, rest) := by
    rw [playerLoop.eq_def]
    simp only [hv]
    norm_num [LIMIT]
    simp only [hoff, if_true]
    rw [hsplit]
    simp only [hcards, hv, hbj, hstand, hpb, Card.isAce, hb, List.dropLast]
    norm_num
    rw [hE, hace]
    simp
  have hv1 : (Hand.add_card ⟨[a], 11, false⟩ cB).value ≤ 21 := by
    unfold Hand.add_card
    by_cases hAce : cB.isAce = true
    · norm_num [hAce]
    · have hr : cB.rank ≠ Rank.A := by simpa [Card.isAce] using hAce
      have hle := rankPoints_le_ten cB.rank hr
      unfold Card.fresh at hfB
      norm_num [hAce]
      omega
  have hAP : after_primary_loop ⟨p.name, p.money - p.wager, p.cashout,
      Hand.add_card ⟨[a], 11, false⟩ cB, p.wager, true,
      some (Hand.add_card ⟨[⟨Rank.A, 11⟩], 11, false⟩ cA), some p.wager⟩
      = ⟨p.name, p.money - p.wager, p.cashout,
        Hand.add_card ⟨[a], 11, false⟩ cB, p.wager, true,
        some (Hand.add_card ⟨[⟨Rank.A, 11⟩], 11, false⟩ cA), some p.wager⟩ := by
    by_cases h21 : (Hand.add_card ⟨[a], 11, false⟩ cB).value = LIMIT
    · simp [after_primary_loop, h21]
    · have hngt : ¬ (Hand.add_card ⟨[a], 11, false⟩ cB).value > LIMIT := by
        unfold LIMIT at *
        omega
      simp [after_primary_loop, h21, hngt]
  have hSP : secondPhase rest dRest ⟨p.name, p.money - p.wager, p.cashout,
      Hand.add_card ⟨[a], 11, false⟩ cB, p.wager, true,
      some (Hand.add_card ⟨[⟨Rank.A, 11⟩], 11, false⟩ cA), some p.wager⟩
      = some (⟨p.name, p.money - p.wager, p.cashout,
          Hand.add_card ⟨[a], 11, false⟩ cB, p.wager, true,
          some (Hand.add_card ⟨[⟨Rank.A, 11⟩], 11, false⟩ cA), some p.wager⟩, dRest, rest) := by
    simp [secondPhase, Hand.add_card, Card.isAce]
  refine ⟨⟨p.name, p.money - p.wager, p.cashout,
      Hand.add_card ⟨[a], 11, false⟩ cB, p.wager, true,
      some (Hand.add_card ⟨[⟨Rank.A, 11⟩], 11, false⟩ cA), some p.wager⟩, ?_, rfl,
      by simp [Hand.add_card], _, rfl, by simp [Hand.add_card]⟩
  unfold playerTurn
  rw [hguard]
  simp only [if_true]
  rw [hPL]
  simp only []
  rw [hAP]
  exact hSP

theorem split_aces_locks_standing_witness :
    ∃ p2, playerTurn [Choice.P] [⟨Rank.K, 10⟩, ⟨Rank.n7, 7⟩]
        (⟨"Gil", 100, false, ⟨[⟨Rank.A, 11⟩, ⟨Rank.A, 1⟩], 12, false⟩, 10, false, none, none⟩ :
          Player) = some (p2, [], [])
      ∧ p2.stand = true
      ∧ p2.hand.cards.length = 2
      ∧ ∃ sh, p2.second_hand = some sh ∧ sh.cards.length = 2 :=
  split_aces_locks_standing
    ⟨"Gil", 100, false, ⟨[⟨Rank.A, 11⟩, ⟨Rank.A, 1⟩], 12, false⟩, 10, false, none, none⟩
    ⟨Rank.A, 11⟩ ⟨Rank.A, 1⟩ ⟨Rank.K, 10⟩ ⟨Rank.n7, 7⟩ [] []
    rfl rfl rfl rfl rfl rfl rfl rfl rfl (by decide) rfl rfl
